import Mathlib

/-!
Shallow embedding of `.opencode/plugin/single-source-of-truth.js`.

The plugin exposes, inside `SingleSourceOfTruthGuard`:
  * a banned-token set `BANNED` and a version-token test `isVersionToken`
    (regex `^v\d+$`);
  * `tokenize` (strip the last extension via `/\.[^.]+$/`, split camelCase via
    `/([a-z0-9])([A-Z])/g -> "$1_$2"`, lowercase, split on `/[^a-z0-9]+/`,
    drop empties);
  * `shouldBlockPath` (`path.basename`, tokenize, any token banned or v+digits);
  * `reject` (build a message, best-effort toast inside try/catch, then throw);
  * `parseNewFilesFromPatch` (line scan over a unified diff with bounded
    look-ahead windows, collecting `+++ b/<path>` captures into a `Set`);
  * the `tool.execute.before` hook dispatching on tool kind "write" / "patch".

Strings are modelled as `List Char` data; JS regex character classes used by
the code are ASCII classes, mirrored by `Char.isLower/isDigit/isUpper`.
JS exceptions are modelled by `Except String`; a JS argument value is
`Option JSValue` (`none` = null/undefined, so `??` is a match on it).
-/

/-- A non-nullish JavaScript value as far as the plugin inspects one:
either a string or some other (non-string) value. -/
inductive JSValue where
  | vstr (s : String)
  | vnonstr
deriving DecidableEq

/-- The argument object of a tool invocation; the hook only ever reads the
keys `filePath`, `path`, `patch` and `content`.  `none` models a key that is
absent, `undefined` or `null`. -/
structure Args where
  filePath : Option JSValue
  path : Option JSValue
  patch : Option JSValue
  content : Option JSValue

/-- JS `a ?? b` on argument values: `b` only when `a` is nullish. -/
def nullish (a b : Option JSValue) : Option JSValue :=
  match a with
  | some v => some v
  | none => b

/-- `typeof v === "string"` on an argument value. -/
def isStringVal : Option JSValue → Bool
  | some (JSValue.vstr _) => true
  | _ => false

/-- The `BANNED` set literal of the plugin. -/
def BANNED : List String :=
  ["enhanced", "enhance",
   "simple", "simplified",
   "refactored", "refactor",
   "optimized", "optimize",
   "alternate", "alternative", "alt",
   "new", "final", "updated", "rewrite",
   "copy", "backup", "bak",
   "temp", "tmp",
   "legacy", "old"]

/-- Regex `^v\d+$` on the characters of a token. -/
def isVersionTokenL : List Char → Bool
  | [] => false
  | c :: rest => c == 'v' && !rest.isEmpty && rest.all Char.isDigit

/-- `isVersionToken` of the plugin: token is `v` followed by one or more
decimal digits. -/
def isVersionToken (t : String) : Bool :=
  isVersionTokenL t.data

/-- `basename.replace(/\.[^.]+$/, "")`: remove the last `.`-plus-non-dots
suffix, if any (the leftmost match of this end-anchored regex is the final
extension).  Implemented on the reversed character list. -/
def stripExt (s : String) : String :=
  let rev := s.data.reverse
  let ext := rev.takeWhile (fun c => c != '.')
  let rest := rev.dropWhile (fun c => c != '.')
  match rest, ext with
  | '.' :: stem, _ :: _ => String.mk stem.reverse
  | _, _ => s

/-- `stem.replace(/([a-z0-9])([A-Z])/g, "$1_$2")`: insert `_` between a
lowercase-or-digit character and an immediately following uppercase one.
Matches never overlap (the second character of a match is uppercase, so it
cannot start the next match), hence the simple pairwise recursion. -/
def camelSplit : List Char → List Char
  | [] => []
  | [c] => [c]
  | a :: b :: rest =>
    if (a.isLower || a.isDigit) && b.isUpper then
      a :: '_' :: camelSplit (b :: rest)
    else
      a :: camelSplit (b :: rest)

/-- A character the split regex `/[^a-z0-9]+/` does NOT treat as a
separator (after lowercasing). -/
def isWordChar (c : Char) : Bool :=
  c.isLower || c.isDigit

/-- Accumulating splitter for `snake.split(/[^a-z0-9]+/).filter(Boolean)`:
`cur` is the current run of word characters (reversed), `acc` the finished
tokens (reversed). -/
def tokenizeAux : List Char → List Char → List String → List String
  | [], cur, acc =>
    if cur.isEmpty then acc else String.mk cur.reverse :: acc
  | c :: rest, cur, acc =>
    if isWordChar c then
      tokenizeAux rest (c :: cur) acc
    else
      tokenizeAux rest [] (if cur.isEmpty then acc else String.mk cur.reverse :: acc)

/-- Split a character list into maximal runs of word characters, dropping
empty pieces — `split(/[^a-z0-9]+/).filter(Boolean)`. -/
def splitTokens (cs : List Char) : List String :=
  (tokenizeAux cs [] []).reverse

/-- `tokenize` of the plugin: strip the last extension, split camelCase,
lowercase, split on non-alphanumeric runs. -/
def tokenize (b : String) : List String :=
  let stem := stripExt b
  let snake := (camelSplit stem.data).map Char.toLower
  splitTokens snake

/-- node `path.basename` (POSIX): drop trailing `/` separators, then take
the final segment after the last remaining `/`. -/
def basename (p : String) : String :=
  let rev := p.data.reverse
  let noSlash := rev.dropWhile (fun c => c == '/')
  let seg := noSlash.takeWhile (fun c => c != '/')
  String.mk seg.reverse

/-- `shouldBlockPath` of the plugin: some token of the basename is banned
or is a `v`+digits version token. -/
def shouldBlockPath (filePath : String) : Bool :=
  let base := basename filePath
  let tokens := tokenize base
  tokens.any (fun t => decide (t ∈ BANNED) || isVersionToken t)

/-- The rejection message built by `reject` (string concatenation as in the
source). -/
def rejectMsg (filePath via : String) : String :=
  "❌ Rejected " ++ via ++ " for \"" ++ filePath ++
  ("\". This project enforces a single source of truth—update the existing file " ++
   "instead of creating a variant (e.g., “enhanced”, “simple”, “v2”). " ++
   "Please produce an in-place edit or a patch that updates the original.")

/-- The `try { ... } catch (_) {}` wrapper around the toast call: whatever
the action does, no exception escapes. -/
def tryCatchDiscard (act : Except String Unit) : Except String Unit :=
  match act with
  | Except.ok _ => Except.ok ()
  | Except.error _ => Except.ok ()

/-- `reject` of the plugin: build the message, attempt the notification
inside try/catch (`notify` models `client.tui.showToast`), then `throw`. -/
def reject (notify : String → Except String Unit) (filePath via : String) :
    Except String Unit :=
  let msg := rejectMsg filePath via
  match tryCatchDiscard (notify msg) with
  | Except.ok _ => Except.error msg
  | Except.error e => Except.error e

/-- A character that JS regex `.` matches (anything but a line terminator). -/
def dotChar (c : Char) : Bool :=
  c != '\n' && c != '\r' && c != ' ' && c != ' '

/-- A character of the JS regex class `\s`. -/
def isJsSpace (c : Char) : Bool :=
  c == ' ' || c == '\t' || c == '\n' || c == '\x0b' || c == '\x0c' || c == '\r' ||
  c == ' ' || c == ' ' ||
  (decide (0x2000 ≤ c.toNat) && decide (c.toNat ≤ 0x200a)) ||
  c == ' ' || c == ' ' || c == ' ' || c == ' ' ||
  c == '　' || c == '﻿'

/-- Strip a literal leading pattern from a character list, if present. -/
def dropPre : List Char → List Char → Option (List Char)
  | [], cs => some cs
  | _ :: _, [] => none
  | p :: ps, c :: cs => if c == p then dropPre ps cs else none

/-- Suffix check for the `diff --git` regex: the remainder is
`" b/"` followed by a non-empty run of `.`-matchable characters
(the final `(.+)$` group). -/
def gitTail : List Char → Bool
  | ' ' :: 'b' :: '/' :: y => !y.isEmpty && y.all dotChar
  | _ => false

/-- Backtracking body of `a\/.+ b\/(.+)$`: some non-empty prefix of
`.`-matchable characters is followed by `" b/"` and a valid tail. -/
def existsSplitGit : List Char → Bool
  | [] => false
  | c :: rest => dotChar c && (gitTail rest || existsSplitGit rest)

/-- `/^diff --git a\/.+ b\/(.+)$/.test(line)`. -/
def matchDiffGitLine (line : String) : Bool :=
  match dropPre "diff --git a/".data line.data with
  | some rest => existsSplitGit rest
  | none => false

/-- `/^new file mode /.test(line)`. -/
def matchNewFileModeLine (line : String) : Bool :=
  (dropPre "new file mode ".data line.data).isSome

/-- `/^---\s+\/dev\/null$/.test(line)`.  `\s+` must take the whole
whitespace run (a shorter prefix would be followed by whitespace, never
by `/`). -/
def matchDevNullLine (line : String) : Bool :=
  match dropPre "---".data line.data with
  | some rest =>
    let ws := rest.takeWhile isJsSpace
    let rest2 := rest.dropWhile isJsSpace
    !ws.isEmpty && rest2 == "/dev/null".data
  | none => false

/-- `/^\+\+\+\s+b\/(.+)$/.exec(line)`, returning the captured path.
As above, `\s+` must take the maximal whitespace run. -/
def plusPath (line : String) : Option String :=
  match dropPre "+++".data line.data with
  | some rest =>
    let ws := rest.takeWhile isJsSpace
    let rest2 := rest.dropWhile isJsSpace
    if ws.isEmpty then none
    else
      match rest2 with
      | 'b' :: '/' :: y =>
        if !y.isEmpty && y.all dotChar then some (String.mk y) else none
      | _ => none
  | none => none

/-- JS `Set.add` with insertion-order iteration: append when absent. -/
def insertSet (out : List String) (x : String) : List String :=
  if x ∈ out then out else out ++ [x]

/-- JS `str.split("\n")` on character data (`cur` is the current piece,
reversed). -/
def splitNlAux : List Char → List Char → List String
  | [], cur => [String.mk cur.reverse]
  | c :: rest, cur =>
    if c == '\n' then String.mk cur.reverse :: splitNlAux rest []
    else splitNlAux rest (c :: cur)

/-- `patchText.split("\n")`. -/
def jsSplitLines (s : String) : List String :=
  splitNlAux s.data []

/-- Inner loop `for (k = j; k < min(j + 6, lines.length); k++)`: collect
every `+++ b/<path>` capture in the window into the set.  `fuel` counts the
remaining window positions (6 at the start). -/
def addMatches (lines : List String) (out : List String) (k : Nat) :
    Nat → List String
  | 0 => out
  | fuel + 1 =>
    if k < lines.length then
      let out2 :=
        match plusPath (lines.getD k "") with
        | some p => insertSet out p
        | none => out
      addMatches lines out2 (k + 1) fuel
    else out

/-- Middle loop `for (j = i + 1; j < min(i + 8, lines.length); j++)`: on the
first `new file mode` or `--- /dev/null` marker, run the inner window from
that `j` and `break`.  `fuel` counts remaining positions (7 at the start). -/
def lookAhead (lines : List String) (out : List String) (j : Nat) :
    Nat → List String
  | 0 => out
  | fuel + 1 =>
    if j < lines.length then
      let lj := lines.getD j ""
      if matchNewFileModeLine lj then addMatches lines out j 6
      else if matchDevNullLine lj then addMatches lines out j 6
      else lookAhead lines out (j + 1) fuel
    else out

/-- Outer loop over all lines: each `diff --git` header line starts a
bounded look-ahead. -/
def scanLines (lines : List String) (out : List String) (i : Nat) :
    Nat → List String
  | 0 => out
  | fuel + 1 =>
    if i < lines.length then
      let out2 :=
        if matchDiffGitLine (lines.getD i "") then lookAhead lines out (i + 1) 7
        else out
      scanLines lines out2 (i + 1) fuel
    else out

/-- `parseNewFilesFromPatch` of the plugin: non-string input yields the
empty set; otherwise scan the split lines. -/
def parseNewFilesFromPatch (patchText : Option JSValue) : List String :=
  match patchText with
  | some (JSValue.vstr s) =>
    let lines := jsSplitLines s
    scanLines lines [] 0 lines.length
  | _ => []

/-- The `tool === "write"` branch of the hook: read
`args.filePath ?? args.path`; if it is a string and `shouldBlockPath`
flags it, `reject`. -/
def writeCheck (notify : String → Except String Unit) (args : Args) :
    Except String Unit :=
  match nullish args.filePath args.path with
  | some (JSValue.vstr p) =>
    if shouldBlockPath p then reject notify p "write" else Except.ok ()
  | _ => Except.ok ()

/-- The `for (const p of newFiles)` loop of the `patch` branch: `reject`
throws, so the loop stops at the first flagged path. -/
def checkPatchFiles (notify : String → Except String Unit) :
    List String → Except String Unit
  | [] => Except.ok ()
  | p :: rest =>
    if shouldBlockPath p then
      match reject notify p "patch(add)" with
      | Except.error e => Except.error e
      | Except.ok _ => checkPatchFiles notify rest
    else checkPatchFiles notify rest

/-- The `tool === "patch"` branch of the hook. -/
def patchCheck (notify : String → Except String Unit) (args : Args) :
    Except String Unit :=
  checkPatchFiles notify (parseNewFilesFromPatch (nullish args.patch args.content))

/-- The `tool.execute.before` hook: the two `if` blocks run in order, and a
throw from the first skips the second. -/
def toolExecuteBefore (notify : String → Except String Unit) (tool : String)
    (args : Args) : Except String Unit :=
  match (if tool = "write" then writeCheck notify args else Except.ok ()) with
  | Except.error e => Except.error e
  | Except.ok _ =>
    if tool = "patch" then patchCheck notify args else Except.ok ()

/-- A unified diff adding `new_enhanced.py` (a variant name) and then
`normal.py` (a clean name). -/
def bannedFirstDiff : String :=
  "diff --git a/new_enhanced.py b/new_enhanced.py\n" ++
  "new file mode 100644\n" ++
  "index 0000000..e69de29\n" ++
  "--- /dev/null\n" ++
  "+++ b/new_enhanced.py\n" ++
  "@@ -0,0 +1 @@\n" ++
  "+x = 1\n" ++
  "diff --git a/normal.py b/normal.py\n" ++
  "new file mode 100644\n" ++
  "index 0000000..e69de29\n" ++
  "--- /dev/null\n" ++
  "+++ b/normal.py\n" ++
  "@@ -0,0 +1 @@\n" ++
  "+y = 2"

/-- The same two file blocks with the clean file first. -/
def cleanFirstDiff : String :=
  "diff --git a/normal.py b/normal.py\n" ++
  "new file mode 100644\n" ++
  "index 0000000..e69de29\n" ++
  "--- /dev/null\n" ++
  "+++ b/normal.py\n" ++
  "@@ -0,0 +1 @@\n" ++
  "+y = 2\n" ++
  "diff --git a/new_enhanced.py b/new_enhanced.py\n" ++
  "new file mode 100644\n" ++
  "index 0000000..e69de29\n" ++
  "--- /dev/null\n" ++
  "+++ b/new_enhanced.py\n" ++
  "@@ -0,0 +1 @@\n" ++
  "+x = 1"

theorem str_data_append (s t : String) : (s ++ t).data = s.data ++ t.data := rfl

theorem takeWhile_all {α : Type} (p : α → Bool) (l : List α)
    (h : ∀ a ∈ l, p a = true) : l.takeWhile p = l := by
  induction l with
  | nil => rfl
  | cons a t ih =>
    rw [List.takeWhile_cons, if_pos (h a (List.mem_cons_self a t))]
    rw [ih (fun x hx => h x (List.mem_cons_of_mem a hx))]

theorem dropWhile_all {α : Type} (p : α → Bool) (l : List α)
    (h : ∀ a ∈ l, p a = true) : l.dropWhile p = [] := by
  induction l with
  | nil => rfl
  | cons a t ih =>
    rw [List.dropWhile_cons, if_pos (h a (List.mem_cons_self a t))]
    exact ih (fun x hx => h x (List.mem_cons_of_mem a hx))

theorem dropWhile_none {α : Type} (p : α → Bool) (l : List α)
    (h : ∀ a ∈ l, p a = false) : l.dropWhile p = l := by
  cases l with
  | nil => rfl
  | cons a t =>
    rw [List.dropWhile_cons, if_neg]
    simp [h a (List.mem_cons_self a t)]

theorem isVersionToken_iff (t : String) :
    isVersionToken t = true ↔
      ∃ ds, t.data = 'v' :: ds ∧ ds ≠ [] ∧ ∀ c ∈ ds, c.isDigit = true := by
  unfold isVersionToken
  cases h : t.data with
  | nil => simp [isVersionTokenL]
  | cons c rest =>
    constructor
    · intro hv
      simp only [isVersionTokenL, Bool.and_eq_true, beq_iff_eq, Bool.not_eq_true',
        List.all_eq_true] at hv
      obtain ⟨⟨hc, hne⟩, hall⟩ := hv
      refine ⟨rest, by rw [hc], ?_, hall⟩
      intro hnil
      rw [hnil] at hne
      simp at hne
    · rintro ⟨ds, hds, hne, hall⟩
      injection hds with h1 h2
      subst h1; subst h2
      simp only [isVersionTokenL, Bool.and_eq_true, beq_iff_eq, Bool.not_eq_true',
        List.all_eq_true]
      refine ⟨⟨by trivial, ?_⟩, hall⟩
      cases rest with
      | nil => exact absurd rfl hne
      | cons a b => rfl

theorem basename_idem (p : String) : basename (basename p) = basename p := by
  simp only [basename]
  have hmem : ∀ c ∈ ((p.data.reverse.dropWhile (fun c => c == '/')).takeWhile
      (fun c => c != '/')), (c != '/') = true := by
    intro c hc
    have h2 := List.mem_takeWhile_imp hc
    exact h2
  rw [show ∀ l : List Char, (String.mk l).data = l from fun _ => rfl]
  rw [List.reverse_reverse]
  rw [dropWhile_none _ _ (fun c hc => by simpa [bne] using hmem c hc)]
  rw [takeWhile_all _ _ hmem]

theorem rejectMsg_contains_path (p via : String) :
    p.data <:+: (rejectMsg p via).data := by
  refine ⟨("❌ Rejected " ++ via ++ " for \"").data,
    (("\". This project enforces a single source of truth—update the existing file " ++
      "instead of creating a variant (e.g., “enhanced”, “simple”, “v2”). " ++
      "Please produce an in-place edit or a patch that updates the original.")).data, ?_⟩
  simp only [rejectMsg, str_data_append, List.append_assoc]

theorem reject_eq (notify : String → Except String Unit) (fp via : String) :
    reject notify fp via = Except.error (rejectMsg fp via) := by
  simp only [reject, tryCatchDiscard]
  cases notify (rejectMsg fp via) <;> rfl

theorem parse_nonstring (v : Option JSValue) (h : isStringVal v = false) :
    parseNewFilesFromPatch v = [] := by
  match v with
  | none => rfl
  | some JSValue.vnonstr => rfl
  | some (JSValue.vstr s) => simp [isStringVal] at h

theorem scanLines_no_git (lines : List String)
    (h : ∀ l ∈ lines, matchDiffGitLine l = false) :
    ∀ (fuel : Nat) (out : List String) (i : Nat), scanLines lines out i fuel = out := by
  intro fuel
  induction fuel with
  | zero => intro out i; rfl
  | succ n ih =>
    intro out i
    simp only [scanLines]
    by_cases hi : i < lines.length
    · have hmem : lines.getD i "" ∈ lines := by
        rw [List.getD_eq_getElem lines "" hi]
        exact List.getElem_mem hi
      rw [if_pos hi, h _ hmem]
      simpa using ih out (i + 1)
    · rw [if_neg hi]

theorem insertSet_nodup (out : List String) (x : String) (h : out.Nodup) :
    (insertSet out x).Nodup := by
  unfold insertSet
  by_cases hx : x ∈ out
  · rw [if_pos hx]; exact h
  · rw [if_neg hx]
    rw [List.nodup_append]
    exact ⟨h, List.nodup_singleton x, fun a ha hb => hx (by simpa [List.mem_singleton.mp hb] using ha)⟩

theorem addMatches_nodup (lines : List String) :
    ∀ (fuel : Nat) (out : List String) (k : Nat), out.Nodup →
      (addMatches lines out k fuel).Nodup := by
  intro fuel
  induction fuel with
  | zero => intro out k h; exact h
  | succ n ih =>
    intro out k h
    simp only [addMatches]
    by_cases hk : k < lines.length
    · rw [if_pos hk]
      apply ih
      cases plusPath (lines.getD k "") with
      | none => exact h
      | some p => exact insertSet_nodup out p h
    · rw [if_neg hk]; exact h

theorem lookAhead_nodup (lines : List String) :
    ∀ (fuel : Nat) (out : List String) (j : Nat), out.Nodup →
      (lookAhead lines out j fuel).Nodup := by
  intro fuel
  induction fuel with
  | zero => intro out j h; exact h
  | succ n ih =>
    intro out j h
    simp only [lookAhead]
    by_cases hj : j < lines.length
    · rw [if_pos hj]
      by_cases h1 : matchNewFileModeLine (lines.getD j "")
      · rw [if_pos h1]; exact addMatches_nodup lines 6 out j h
      · rw [if_neg h1]
        by_cases h2 : matchDevNullLine (lines.getD j "")
        · rw [if_pos h2]; exact addMatches_nodup lines 6 out j h
        · rw [if_neg h2]; exact ih out (j + 1) h
    · rw [if_neg hj]; exact h

theorem scanLines_nodup (lines : List String) :
    ∀ (fuel : Nat) (out : List String) (i : Nat), out.Nodup →
      (scanLines lines out i fuel).Nodup := by
  intro fuel
  induction fuel with
  | zero => intro out i h; exact h
  | succ n ih =>
    intro out i h
    simp only [scanLines]
    by_cases hi : i < lines.length
    · rw [if_pos hi]
      apply ih
      by_cases hg : matchDiffGitLine (lines.getD i "")
      · rw [if_pos hg]; exact lookAhead_nodup lines 7 out (i + 1) h
      · rw [if_neg hg]; exact h
    · rw [if_neg hi]; exact h

theorem checkPatchFiles_find (notify : String → Except String Unit) :
    ∀ ps : List String,
      checkPatchFiles notify ps =
        match ps.find? shouldBlockPath with
        | some p => Except.error (rejectMsg p "patch(add)")
        | none => Except.ok () := by
  intro ps
  induction ps with
  | nil => rfl
  | cons p rest ih =>
    by_cases hp : shouldBlockPath p
    · rw [List.find?_cons_of_pos _ hp]
      simp only [checkPatchFiles, if_pos hp, reject, tryCatchDiscard]
      cases notify (rejectMsg p "patch(add)") <;> rfl
    · rw [List.find?_cons_of_neg _ (by simpa using hp)]
      simp only [checkPatchFiles, if_neg hp]
      exact ih

/-- Claim C1: `shouldBlockPath` returns true iff some token of the
normalized basename is in the banned set or is exactly `v` followed by one
or more decimal digits; in particular "feature_enhanced.ts" and
"parser_v2.rs" classify true while "feature.ts", "parser_v.rs" and
"parser_version.rs" classify false. -/
theorem claim_C1 :
    (∀ p : String, shouldBlockPath p = true ↔
      ∃ t ∈ tokenize (basename p), t ∈ BANNED ∨
        ∃ ds, t.data = 'v' :: ds ∧ ds ≠ [] ∧ ∀ c ∈ ds, c.isDigit = true) ∧
    shouldBlockPath "feature_enhanced.ts" = true ∧
    shouldBlockPath "parser_v2.rs" = true ∧
    shouldBlockPath "feature.ts" = false ∧
    shouldBlockPath "parser_v.rs" = false ∧
    shouldBlockPath "parser_version.rs" = false := by
  refine ⟨?_, by decide, by decide, by decide, by decide, by decide⟩
  intro p
  simp only [shouldBlockPath, List.any_eq_true, Bool.or_eq_true,
    decide_eq_true_eq, isVersionToken_iff]

/-- Claim C1 witness: the characterization applied at the concrete input
"parser_v2.rs". -/
theorem claim_C1_witness :
    ∃ t ∈ tokenize (basename "parser_v2.rs"), t ∈ BANNED ∨
      ∃ ds, t.data = 'v' :: ds ∧ ds ≠ [] ∧ ∀ c ∈ ds, c.isDigit = true :=
  (claim_C1.1 "parser_v2.rs").mp (by decide)

/-- Claim C2: a "write" invocation with filePath "src/simple_utils.js"
raises an error whose message contains that path, a "write" invocation with
"src/utils.js" returns normally, and any other tool kind returns normally
for all argument values. -/
theorem claim_C2 :
    (∀ notify : String → Except String Unit, ∃ msg,
        toolExecuteBefore notify "write"
          (Args.mk (some (JSValue.vstr "src/simple_utils.js")) none none none) =
          Except.error msg ∧
        "src/simple_utils.js".data <:+: msg.data) ∧
    (∀ notify : String → Except String Unit,
        toolExecuteBefore notify "write"
          (Args.mk (some (JSValue.vstr "src/utils.js")) none none none) =
          Except.ok ()) ∧
    (∀ (notify : String → Except String Unit) (tool : String) (args : Args),
        tool ≠ "write" → tool ≠ "patch" →
          toolExecuteBefore notify tool args = Except.ok ()) := by
  refine ⟨?_, ?_, ?_⟩
  · intro notify
    refine ⟨rejectMsg "src/simple_utils.js" "write", ?_, rejectMsg_contains_path _ _⟩
    calc toolExecuteBefore notify "write"
          (Args.mk (some (JSValue.vstr "src/simple_utils.js")) none none none)
        = (match reject notify "src/simple_utils.js" "write" with
           | Except.error e => Except.error e
           | Except.ok _ => Except.ok ()) := rfl
      _ = Except.error (rejectMsg "src/simple_utils.js" "write") := by
          rw [reject_eq]
  · intro notify
    rfl
  · intro notify tool args h1 h2
    simp [toolExecuteBefore, h1, h2]

/-- Claim C2 witness: a "read" invocation with a variant-named filePath
argument returns normally. -/
theorem claim_C2_witness :
    toolExecuteBefore (fun _ => Except.ok ()) "read"
      (Args.mk (some (JSValue.vstr "src/simple_utils.js")) none none none) =
      Except.ok () :=
  claim_C2.2.2 (fun _ => Except.ok ()) "read"
    (Args.mk (some (JSValue.vstr "src/simple_utils.js")) none none none)
    (by decide) (by decide)

/-- Claim C3: on a diff introducing new_enhanced.py and normal.py via
`diff --git` headers plus `new file mode` markers, the scanner returns
exactly the two new-side paths of the `+++ b/` lines, `b/` stripped, in
insertion order; and for every input the result has set semantics (no
duplicates). -/
theorem claim_C3 :
    parseNewFilesFromPatch (some (JSValue.vstr bannedFirstDiff)) =
      ["new_enhanced.py", "normal.py"] ∧
    ∀ v : Option JSValue, (parseNewFilesFromPatch v).Nodup := by
  refine ⟨by decide, ?_⟩
  intro v
  match v with
  | none => exact List.nodup_nil
  | some JSValue.vnonstr => exact List.nodup_nil
  | some (JSValue.vstr s) =>
    exact scanLines_nodup (jsSplitLines s) (jsSplitLines s).length [] 0 List.nodup_nil

/-- Claim C4 counterexample: the claim asserts ".env" tokenizes to the
single token "env" and hence ".tmp" classifies true; the code strips the
whole basename as an extension, so ".env" has no tokens and ".tmp" is not
blocked. -/
theorem claim_C4_counterexample :
    tokenize ".env" ≠ ["env"] ∧ shouldBlockPath ".tmp" = false := by
  exact ⟨by decide, by decide⟩

/-- Claim C4 (amended): extension stripping removes only the shortest final
`.`-plus-non-dots suffix ("archive.tar.gz" loses only ".gz", a dot-free
name is unchanged), and a hidden-file basename that is exactly a dot plus
an extension-like remainder is consumed entirely: ".env" tokenizes to the
empty sequence and ".tmp" classifies false. -/
theorem claim_C4 :
    stripExt "archive.tar.gz" = "archive.tar" ∧
    (∀ s : String, (∀ c ∈ s.data, c ≠ '.') → stripExt s = s) ∧
    tokenize ".env" = [] ∧
    shouldBlockPath ".tmp" = false := by
  refine ⟨by decide, ?_, by decide, by decide⟩
  intro s h
  have hall : ∀ c ∈ s.data.reverse, (fun c => c != '.') c = true := by
    intro c hc
    simpa [bne] using h c (List.mem_reverse.mp hc)
  have h1 : s.data.reverse.dropWhile (fun c => c != '.') = [] :=
    dropWhile_all _ _ hall
  simp only [stripExt, h1]

/-- Claim C4 witness: the no-dot clause applied at the concrete basename
"nodots". -/
theorem claim_C4_witness : stripExt "nodots" = "nodots" :=
  claim_C4.2.1 "nodots" (by decide)

/-- Claim C5: the patch branch rejects exactly the first flagged path of
the scanned set (insertion order), and a patch adding one banned-named and
one clean file raises the rejection for the banned file in either block
order. -/
theorem claim_C5 :
    (∀ (notify : String → Except String Unit) (ps : List String),
      checkPatchFiles notify ps =
        match ps.find? shouldBlockPath with
        | some p => Except.error (rejectMsg p "patch(add)")
        | none => Except.ok ()) ∧
    (∀ notify : String → Except String Unit,
      toolExecuteBefore notify "patch"
        (Args.mk none none (some (JSValue.vstr bannedFirstDiff)) none) =
        Except.error (rejectMsg "new_enhanced.py" "patch(add)")) ∧
    (∀ notify : String → Except String Unit,
      toolExecuteBefore notify "patch"
        (Args.mk none none (some (JSValue.vstr cleanFirstDiff)) none) =
        Except.error (rejectMsg "new_enhanced.py" "patch(add)")) := by
  refine ⟨checkPatchFiles_find, ?_, ?_⟩
  · intro notify
    have step : toolExecuteBefore notify "patch"
        (Args.mk none none (some (JSValue.vstr bannedFirstDiff)) none) =
        checkPatchFiles notify
          (parseNewFilesFromPatch (some (JSValue.vstr bannedFirstDiff))) := rfl
    rw [step,
      show parseNewFilesFromPatch (some (JSValue.vstr bannedFirstDiff)) =
        ["new_enhanced.py", "normal.py"] from by decide,
      checkPatchFiles_find]
    rfl
  · intro notify
    have step : toolExecuteBefore notify "patch"
        (Args.mk none none (some (JSValue.vstr cleanFirstDiff)) none) =
        checkPatchFiles notify
          (parseNewFilesFromPatch (some (JSValue.vstr cleanFirstDiff))) := rfl
    rw [step,
      show parseNewFilesFromPatch (some (JSValue.vstr cleanFirstDiff)) =
        ["normal.py", "new_enhanced.py"] from by decide,
      checkPatchFiles_find]
    rfl

/-- Claim C6: `reject` always raises the rejection message, whatever the
notification sink does — a faulting sink neither replaces nor suppresses
the rejection, and two different sinks give identical results. -/
theorem claim_C6 :
    ∀ (notify notify2 : String → Except String Unit) (fp via : String),
      reject notify fp via = Except.error (rejectMsg fp via) ∧
      reject notify fp via = reject notify2 fp via := by
  have key : ∀ (n : String → Except String Unit) (fp via : String),
      reject n fp via = Except.error (rejectMsg fp via) := by
    intro n fp via
    simp only [reject, tryCatchDiscard]
    cases n (rejectMsg fp via) <;> rfl
  intro notify notify2 fp via
  exact ⟨key notify fp via, by rw [key, key]⟩

/-- Claim C7: a non-string input to the diff scanner yields the empty set,
and a string input none of whose lines is a `diff --git` header also yields
the empty set; the scanner is a total function and never raises. -/
theorem claim_C7 :
    (∀ v : Option JSValue, isStringVal v = false →
      parseNewFilesFromPatch v = []) ∧
    (∀ s : String, (∀ l ∈ jsSplitLines s, matchDiffGitLine l = false) →
      parseNewFilesFromPatch (some (JSValue.vstr s)) = []) := by
  refine ⟨parse_nonstring, ?_⟩
  intro s h
  simp only [parseNewFilesFromPatch]
  exact scanLines_no_git (jsSplitLines s) h (jsSplitLines s).length [] 0

/-- Claim C7 witness: the scanner at a nullish input and at the plain text
"hello world". -/
theorem claim_C7_witness :
    parseNewFilesFromPatch none = [] ∧
    parseNewFilesFromPatch (some (JSValue.vstr "hello world")) = [] :=
  ⟨claim_C7.1 none rfl, claim_C7.2 "hello world" (by decide)⟩

/-- Claim C8: classification depends only on the basename — classifying a
path equals classifying its basename, equal basenames classify equally,
and a banned token in a directory segment alone never flags. -/
theorem claim_C8 :
    (∀ p : String, shouldBlockPath (basename p) = shouldBlockPath p) ∧
    (∀ p q : String, basename p = basename q →
      shouldBlockPath p = shouldBlockPath q) ∧
    shouldBlockPath "backup/utils.js" = false := by
  have h1 : ∀ p : String, shouldBlockPath (basename p) = shouldBlockPath p := by
    intro p
    simp only [shouldBlockPath, basename_idem]
  exact ⟨h1, fun p q h => by rw [← h1 p, ← h1 q, h], by decide⟩

/-- Claim C8 witness: two paths sharing the basename "x.js" classify
identically. -/
theorem claim_C8_witness :
    shouldBlockPath "a/x.js" = shouldBlockPath "b/x.js" :=
  claim_C8.2.1 "a/x.js" "b/x.js" (by decide)

/-- Claim C9: a "write" invocation where neither filePath nor the path
fallback is a string, and a "patch" invocation where neither patch nor the
content fallback is a string, both return normally. -/
theorem claim_C9 :
    (∀ (notify : String → Except String Unit) (args : Args),
      isStringVal (nullish args.filePath args.path) = false →
        toolExecuteBefore notify "write" args = Except.ok ()) ∧
    (∀ (notify : String → Except String Unit) (args : Args),
      isStringVal (nullish args.patch args.content) = false →
        toolExecuteBefore notify "patch" args = Except.ok ()) := by
  constructor
  · intro notify args h
    match hv : nullish args.filePath args.path with
    | some (JSValue.vstr p) => rw [hv] at h; simp [isStringVal] at h
    | some JSValue.vnonstr => simp [toolExecuteBefore, writeCheck, hv]
    | none => simp [toolExecuteBefore, writeCheck, hv]
  · intro notify args h
    simp only [toolExecuteBefore, patchCheck]
    rw [parse_nonstring _ h]
    rfl

/-- Claim C9 witness: both branches applied at an invocation with no
arguments at all. -/
theorem claim_C9_witness :
    toolExecuteBefore (fun _ => Except.ok ()) "write"
      (Args.mk none none none none) = Except.ok () ∧
    toolExecuteBefore (fun _ => Except.ok ()) "patch"
      (Args.mk none none none none) = Except.ok () :=
  ⟨claim_C9.1 (fun _ => Except.ok ()) (Args.mk none none none none) (by decide),
   claim_C9.2 (fun _ => Except.ok ()) (Args.mk none none none none) (by decide)⟩

/-- Claim C10: the camelCase split only fires where a lowercase letter or
digit immediately precedes an uppercase letter, so "PARSERV2.md" collapses
to one token and is not blocked, while "ParserV2.md" and "ENHANCED.md"
are blocked. -/
theorem claim_C10 :
    shouldBlockPath "PARSERV2.md" = false ∧
    shouldBlockPath "ParserV2.md" = true ∧
    shouldBlockPath "ENHANCED.md" = true :=
  ⟨by decide, by decide, by decide⟩
